import Mathlib

/-!
Shallow embedding of the MarbleMachine image-to-gcode pipeline
(`src/test.py`, centroid mode, and `src/main.py`, contour mode).

Modelling conventions:
* Python floats are modelled as exact rationals (`ℚ`).  All the
  quantities the pipeline manipulates (integer centroids, integer
  configuration constants, division by 1000) stay exactly representable,
  so the rational model agrees with the float program on the values the
  claims are about.
* `round(x, 3)` is modelled as round-half-to-even at three decimal
  places (`round3`), the tie-breaking rule Python's `round` uses.
* Sorting: Python's `sorted` is a stable ascending sort by key; it is
  modelled by `List.insertionSort` with the reflexive total relation
  `key a ≤ key b`, which is also a stable ascending sort by the same
  key, hence produces the identical list.  The sort key in `test.py` is
  the Euclidean distance `((cx-X/2)^2 + (cy-Y/2)^2) ** 0.5`; since the
  square root is strictly monotone on nonnegative reals, sorting by the
  squared distance `distKey` yields the same order and the same ties.
-/

/-! ### Definitions -/

/-- Round-half-to-even of a rational to the nearest integer
(the tie-breaking rule of Python's built-in `round`). -/
def rhe (q : ℚ) : ℤ :=
  if q - q.floor < 1/2 then q.floor
  else if 1/2 < q - q.floor then q.floor + 1
  else if 2 ∣ q.floor then q.floor else q.floor + 1

/-- `round(x, 3)` of Python, on rationals: round half to even at the
third decimal place. -/
def round3 (q : ℚ) : ℚ := (rhe (q * 1000) : ℚ) / 1000

/-- The fixed build-time configuration block of `src/test.py` /
`src/main.py` (lines 87-94). -/
structure ProgramConfig where
  program_maximum_x : ℤ
  program_maximum_y : ℤ
  program_initial_speed : ℤ
  program_border_x : ℤ
  program_border_y : ℤ
  program_debug : Bool
deriving DecidableEq, Repr

/-- The concrete constants of `src/test.py` lines 89-94:
max 613×548, speed 5000, borders 50, debug on. -/
def testConfig : ProgramConfig :=
  { program_maximum_x := 613
    program_maximum_y := 548
    program_initial_speed := 5000
    program_border_x := 50
    program_border_y := 50
    program_debug := true }

/-- One device-space mapping step of the printer loop, per axis:
`printer = (((max_axis - 2*border_axis)/1000) * c) + border_axis`,
then rounded to 3 decimal places (`test.py` lines 280-290,
`main.py` lines 202-212). -/
def mapAxis (maxA borderA : ℤ) (c : ℚ) : ℚ :=
  round3 ((((maxA : ℚ) - 2 * borderA) / 1000) * c + borderA)

/-- One line of the output stream: feed-rate line `M203 ...`,
motion line `G0 X.. Y.. Z..`, or a bed-shake line `G0 Z..`. -/
inductive GCommand where
  | feedrate (s : ℤ)
  | move (x y z : ℚ)
  | shakeZ (z : ℚ)
deriving DecidableEq, Repr

/-- Whether a command is a motion (`G0 X.. Y.. Z..`) command. -/
def isMove : GCommand → Bool
  | .move _ _ _ => true
  | _ => false

/-- The Y coordinate carried by a motion command (0 otherwise). -/
def gY : GCommand → ℚ
  | .move _ y _ => y
  | _ => 0

/-- The Z coordinate carried by a motion command (0 otherwise). -/
def gZ : GCommand → ℚ
  | .move _ _ z => z
  | _ => 0

/-- The body of the per-point loop of `test.py` lines 276-293 and
`main.py` lines 199-216: map both axes into printer space, pick z
(pinned to 0 in debug mode, otherwise the unrounded printer y), round
all three to three decimals and emit one `G0` line. -/
def mapCenter (cfg : ProgramConfig) (c : ℤ × ℤ) : GCommand :=
  let image_x : ℚ := c.1
  let image_y : ℚ := c.2
  let printer_x : ℚ :=
    (((cfg.program_maximum_x : ℚ) - 2 * cfg.program_border_x) / 1000) * image_x
      + cfg.program_border_x
  let printer_y : ℚ :=
    (((cfg.program_maximum_y : ℚ) - 2 * cfg.program_border_y) / 1000) * image_y
      + cfg.program_border_y
  let printer_z : ℚ := if cfg.program_debug then 0 else printer_y
  .move (round3 printer_x) (round3 printer_y) (round3 printer_z)

/-- The raw moments of one contour as returned by `cv2.moments`:
area `m00` and first moments `m10`, `m01`. -/
structure Blob where
  m00 : ℚ
  m10 : ℚ
  m01 : ℚ
deriving DecidableEq, Repr

/-- Truncation toward zero, Python's `int()` applied to a float. -/
def truncQ (q : ℚ) : ℤ := if q < 0 then -⌊-q⌋ else ⌊q⌋

/-- `(cX, cY) = (int(m10/m00), int(m01/m00))` of `test.py` lines 258-259. -/
def centroidOf (b : Blob) : ℤ × ℤ :=
  (truncQ (b.m10 / b.m00), truncQ (b.m01 / b.m00))

/-- The centroid-collection loop of `test.py` lines 254-260: walk the
contours in order, keep `(int(m10/m00), int(m01/m00))` whenever
`m00 != 0`, skip the contour otherwise. -/
def extractCenters : List Blob → List (ℤ × ℤ)
  | [] => []
  | b :: bs =>
    if b.m00 ≠ 0 then centroidOf b :: extractCenters bs
    else extractCenters bs

/-- The squared sort key of `test.py` lines 263-265: squared Euclidean
distance from a centroid to `(program_maximum_x/2, program_maximum_y/2)`.
The code sorts by the square root of this quantity; the square root is
strictly monotone on nonnegative reals, so sorting (with ties) by
`distKey` coincides with sorting by the Euclidean distance itself. -/
def distKey (cfg : ProgramConfig) (c : ℤ × ℤ) : ℚ :=
  ((c.1 : ℚ) - (cfg.program_maximum_x : ℚ) / 2) ^ 2
    + ((c.2 : ℚ) - (cfg.program_maximum_y : ℚ) / 2) ^ 2

/-- `centers = sorted(centers, key=...)` of `test.py` line 265.
Python's `sorted` is a stable ascending sort by key; so is insertion
sort with the total relation `distKey a ≤ distKey b`, and a stable sort
by a fixed key is unique, so the two agree on every input list. -/
def sortCenters (cfg : ProgramConfig) (centers : List (ℤ × ℤ)) : List (ℤ × ℤ) :=
  centers.insertionSort (fun a b => distKey cfg a ≤ distKey cfg b)

/-- The gcode assembly of `test.py` lines 267-293: an `M203` feed-rate
line when the initial speed is nonzero, then one `G0` motion line per
center, in order. -/
def emitGcode (cfg : ProgramConfig) (centers : List (ℤ × ℤ)) : List GCommand :=
  (if cfg.program_initial_speed ≠ 0 then [.feedrate cfg.program_initial_speed] else [])
    ++ centers.map (mapCenter cfg)

/-- The full centroid-mode pipeline of `test.py` from the moment loop
onward: extract centroids, sort them by distance to the center
reference, emit gcode. -/
def pipelineCentroid (cfg : ProgramConfig) (blobs : List Blob) : List GCommand :=
  emitGcode cfg (sortCenters cfg (extractCenters blobs))

/-- The two string accumulators of `main.py` lines 190-191:
`gcode` (what is written to the file) and `gcode_temp`. -/
structure EmitState where
  gcode : List GCommand
  gcode_temp : List GCommand
deriving DecidableEq, Repr

/-- The inner per-point body of `main.py` lines 200-216: the mapped
motion line is appended to `gcode_temp`, not to `gcode`. -/
def contourStep (cfg : ProgramConfig) (st : EmitState) (point : ℤ × ℤ) : EmitState :=
  { st with gcode_temp := st.gcode_temp ++ [mapCenter cfg point] }

/-- The contour-mode gcode assembly of `main.py` lines 189-242: `gcode`
starts with the optional `M203` line, and the nested loop over contour
points only ever appends to `gcode_temp`. -/
def contourPipeline (cfg : ProgramConfig) (contours : List (List (ℤ × ℤ))) : EmitState :=
  let init : EmitState :=
    { gcode :=
        if cfg.program_initial_speed ≠ 0 then [.feedrate cfg.program_initial_speed] else []
      gcode_temp := [] }
  contours.foldl (fun st contour => contour.foldl (contourStep cfg) st) init

/-- `f.write(gcode)` of `main.py` lines 246-247: only the `gcode`
accumulator reaches the output file. -/
def writtenGcode (cfg : ProgramConfig) (contours : List (List (ℤ × ℤ))) : List GCommand :=
  (contourPipeline cfg contours).gcode

/-- Modelled from the spec: no bed-shake implementation exists under
`src/` (the option and its emitter appear only in the spec).  Spec §4.6:
"If bed-shake is enabled: emit 25 alternating commands oscillating a
single axis between two fixed positions (agitation burst),
unconditionally prepended", with §6 giving the line format `G0 Z<0|1>`:
25 lines alternating between Z=0 and Z=1. -/
def bedShakePreamble : List GCommand :=
  (List.range 25).map fun i => .shakeZ (if i % 2 = 0 then 0 else 1)

/-- Modelled from the spec: the emitter with the bed-shake option of
spec §4.6 — the agitation burst is unconditionally prepended to the
stream produced by the `src/test.py` emitter. -/
def emitWithShake (cfg : ProgramConfig) (bedShake : Bool)
    (centers : List (ℤ × ℤ)) : List GCommand :=
  (if bedShake then bedShakePreamble else []) ++ emitGcode cfg centers

/-! ### Helper lemmas -/

lemma ratFloor_eq (q : ℚ) : q.floor = ⌊q⌋ := by
  rw [Rat.floor_def', Rat.floor_def]

lemma rhe_intCast (n : ℤ) : rhe (n : ℚ) = n := by
  unfold rhe
  rw [ratFloor_eq, Int.floor_intCast]
  simp

lemma floor_le_rhe (q : ℚ) : ⌊q⌋ ≤ rhe q := by
  unfold rhe
  rw [ratFloor_eq]
  split_ifs <;> omega

lemma rhe_le_floor_add_one (q : ℚ) : rhe q ≤ ⌊q⌋ + 1 := by
  unfold rhe
  rw [ratFloor_eq]
  split_ifs <;> omega

lemma rhe_mono {a b : ℚ} (hab : a ≤ b) : rhe a ≤ rhe b := by
  have hfl : ⌊a⌋ ≤ ⌊b⌋ := Int.floor_mono hab
  rcases eq_or_lt_of_le hfl with heq | hlt
  · unfold rhe
    rw [ratFloor_eq, ratFloor_eq, ← heq]
    split_ifs <;> first | omega | linarith
  · calc rhe a ≤ ⌊a⌋ + 1 := rhe_le_floor_add_one a
    _ ≤ ⌊b⌋ := by omega
    _ ≤ rhe b := floor_le_rhe b

lemma round3_mono {a b : ℚ} (hab : a ≤ b) : round3 a ≤ round3 b := by
  unfold round3
  have h : rhe (a * 1000) ≤ rhe (b * 1000) := rhe_mono (by linarith)
  have h' : ((rhe (a * 1000) : ℚ)) ≤ (rhe (b * 1000) : ℚ) := by exact_mod_cast h
  linarith

/-- `round3` is exact on quantities that already have at most three
decimal places. -/
lemma round3_int_div (k : ℤ) : round3 ((k : ℚ) / 1000) = (k : ℚ) / 1000 := by
  unfold round3
  have h : ((k : ℚ) / 1000) * 1000 = (k : ℚ) := by ring
  rw [h, rhe_intCast]

lemma round3_intCast (n : ℤ) : round3 (n : ℚ) = n := by
  have h := round3_int_div (n * 1000)
  have h' : ((n * 1000 : ℤ) : ℚ) / 1000 = (n : ℚ) := by push_cast; ring
  rwa [h'] at h

lemma round3_zero : round3 0 = 0 := by
  simpa using round3_intCast 0

/-- `mapAxis` on an integer canvas coordinate is exact: the quantity
being rounded already has at most three decimal places, so `round3`
changes nothing. -/
lemma mapAxis_int (m b c : ℤ) :
    mapAxis m b (c : ℚ) = (((m - 2 * b) * c + 1000 * b : ℤ) : ℚ) / 1000 := by
  unfold mapAxis
  have h : (((m : ℚ) - 2 * b) / 1000) * c + b
      = (((m - 2 * b) * c + 1000 * b : ℤ) : ℚ) / 1000 := by
    push_cast
    ring
  rw [h, round3_int_div]

/-- The per-point loop body, written with `mapAxis`. -/
lemma mapCenter_eq (cfg : ProgramConfig) (c : ℤ × ℤ) :
    mapCenter cfg c =
      .move (mapAxis cfg.program_maximum_x cfg.program_border_x c.1)
        (mapAxis cfg.program_maximum_y cfg.program_border_y c.2)
        (if cfg.program_debug then 0
         else mapAxis cfg.program_maximum_y cfg.program_border_y c.2) := by
  unfold mapCenter mapAxis
  rcases hd : cfg.program_debug <;> simp [hd, round3_zero]

lemma isMove_mapCenter (cfg : ProgramConfig) (c : ℤ × ℤ) :
    isMove (mapCenter cfg c) = true := by
  rw [mapCenter_eq]
  rfl

/-- Inserting `a` into `l` with `List.orderedInsert` by a rational key
puts `a` in front of every element of equal key and moves past only
elements of strictly smaller key; so, restricted to any fixed key value
`d`, the result is `a` consed in front (when `key a = d`) or the old
filtered list unchanged. -/
lemma filter_key_orderedInsert (key : (ℤ × ℤ) → ℚ) (d : ℚ) (a : ℤ × ℤ) :
    ∀ l : List (ℤ × ℤ),
      (List.orderedInsert (fun x y => key x ≤ key y) a l).filter
          (fun x => decide (key x = d)) =
        if key a = d
        then a :: l.filter (fun x => decide (key x = d))
        else l.filter (fun x => decide (key x = d))
  | [] => by
    simp only [List.orderedInsert, List.filter]
    split_ifs with h <;> simp [h]
  | b :: t => by
    simp only [List.orderedInsert]
    by_cases hab : key a ≤ key b
    · simp only [if_pos hab, List.filter]
      split_ifs with h1 <;> simp [h1]
    · have hba : key b < key a := lt_of_not_le hab
      simp only [if_neg hab, List.filter_cons]
      rw [filter_key_orderedInsert key d a t]
      by_cases h1 : key a = d
      · have h2 : ¬ key b = d := by
          intro h2
          rw [h1, ← h2] at hba
          exact lt_irrefl _ hba
        simp [h1, h2]
      · simp [h1]

/-- Stability of `List.insertionSort` by a rational key: the sorted
list, restricted to any fixed key value, is the input list restricted
to that key value — equal-key elements keep their relative order. -/
lemma filter_key_insertionSort (key : (ℤ × ℤ) → ℚ) (d : ℚ) :
    ∀ l : List (ℤ × ℤ),
      (l.insertionSort (fun x y => key x ≤ key y)).filter
          (fun x => decide (key x = d)) =
        l.filter (fun x => decide (key x = d))
  | [] => rfl
  | a :: t => by
    simp only [List.insertionSort]
    rw [filter_key_orderedInsert key d a (t.insertionSort fun x y => key x ≤ key y),
      filter_key_insertionSort key d t, List.filter_cons]
    by_cases h1 : key a = d <;> simp [h1]

/-- The nested per-point loop of `main.py` never touches `gcode`: it
only extends `gcode_temp`, by the mapped points in order. -/
lemma contour_fold_gcode (cfg : ProgramConfig) :
    ∀ (contour : List (ℤ × ℤ)) (st : EmitState),
      (contour.foldl (contourStep cfg) st).gcode = st.gcode ∧
      (contour.foldl (contourStep cfg) st).gcode_temp
        = st.gcode_temp ++ contour.map (mapCenter cfg)
  | [], st => by simp
  | p :: t, st => by
    simp only [List.foldl_cons, List.map_cons]
    rcases contour_fold_gcode cfg t (contourStep cfg st p) with ⟨h1, h2⟩
    refine ⟨by rw [h1]; rfl, ?_⟩
    rw [h2]
    simp [contourStep]

/-- Same invariant lifted over the outer loop over all contours. -/
lemma contours_fold_gcode (cfg : ProgramConfig) :
    ∀ (cs : List (List (ℤ × ℤ))) (st : EmitState),
      (cs.foldl (fun st c => c.foldl (contourStep cfg) st) st).gcode = st.gcode ∧
      (cs.foldl (fun st c => c.foldl (contourStep cfg) st) st).gcode_temp
        = st.gcode_temp ++ (cs.map fun c => c.map (mapCenter cfg)).flatten
  | [], st => by simp
  | c :: cs, st => by
    simp only [List.foldl_cons, List.map_cons, List.flatten]
    rcases contour_fold_gcode cfg c st with ⟨h1, h2⟩
    rcases contours_fold_gcode cfg cs (c.foldl (contourStep cfg) st) with ⟨h3, h4⟩
    exact ⟨by rw [h3, h1], by rw [h4, h2]; simp⟩

/-! ### Claim theorems -/

/-- C1: for every canvas-space coordinate `c` in `[0, 1000]` and every
pair of integer axis limits `(max_axis, border_axis)`, the Coordinate
Mapper computes `device = round3(((max_axis - 2*border_axis)/1000)*c +
border_axis)`; whenever the margins satisfy the spec's precondition
`2*border_axis ≤ max_axis` it is monotone on `[0, 1000]`; canvas
coordinate 0 maps exactly to `border_axis` and canvas coordinate 1000
maps exactly to `max_axis - border_axis`. -/
theorem mapper_formula_monotone_endpoints (m b : ℤ) :
    (∀ c : ℚ, mapAxis m b c = round3 ((((m : ℚ) - 2 * b) / 1000) * c + b)) ∧
    (2 * b ≤ m → ∀ c₁ c₂ : ℚ, 0 ≤ c₁ → c₁ ≤ c₂ → c₂ ≤ 1000 →
      mapAxis m b c₁ ≤ mapAxis m b c₂) ∧
    mapAxis m b 0 = (b : ℚ) ∧
    mapAxis m b 1000 = (m : ℚ) - b := by
  refine ⟨fun c => rfl, ?_, ?_, ?_⟩
  · intro h c₁ c₂ _ h12 _
    unfold mapAxis
    apply round3_mono
    have ha : (0 : ℚ) ≤ ((m : ℚ) - 2 * b) / 1000 := by
      have hc : (2 * b : ℚ) ≤ (m : ℚ) := by exact_mod_cast h
      linarith
    nlinarith
  · have h0 := mapAxis_int m b 0
    simp only [Int.cast_zero] at h0
    rw [h0]
    push_cast
    ring
  · have h1 := mapAxis_int m b 1000
    have hcast : ((1000 : ℤ) : ℚ) = 1000 := by norm_num
    rw [hcast] at h1
    rw [h1]
    push_cast
    ring

/-- Witness for C1 at the configured X axis (max 613, border 50). -/
theorem mapper_formula_monotone_endpoints_witness :
    mapAxis 613 50 0 ≤ mapAxis 613 50 1000 ∧ mapAxis 613 50 0 = (50 : ℚ) :=
  ⟨(mapper_formula_monotone_endpoints 613 50).2.1 (by decide) 0 1000
      le_rfl (by norm_num) le_rfl,
   by simpa using (mapper_formula_monotone_endpoints 613 50).2.2.1⟩

/-- C2: on the single centroid (500,500) — a one-pixel blob, moments
m00 = 1, m10 = m01 = 500 — under the configuration of `test.py`
(max_x 613, max_y 548, borders 50, debug on), the pipeline emits the
feed-rate line and exactly one motion command, with x = 306.5,
y = 274.0, z = 0. -/
theorem single_center_scenario :
    pipelineCentroid testConfig [Blob.mk 1 500 500] =
      [GCommand.feedrate 5000, GCommand.move (306.5 : ℚ) (274 : ℚ) 0] ∧
    (pipelineCentroid testConfig [Blob.mk 1 500 500]).filter isMove =
      [GCommand.move (306.5 : ℚ) (274 : ℚ) 0] := by
  have h1 : extractCenters [Blob.mk 1 500 500] = [((500 : ℤ), (500 : ℤ))] := by
    norm_num [extractCenters, centroidOf, truncQ]
  have h2 : sortCenters testConfig [((500 : ℤ), (500 : ℤ))]
      = [((500 : ℤ), (500 : ℤ))] := by
    simp [sortCenters, List.insertionSort]
  have hx : mapAxis 613 50 (500 : ℚ) = 306.5 := by
    rw [show (500 : ℚ) = ((500 : ℤ) : ℚ) by norm_num, mapAxis_int]
    norm_num
  have hy : mapAxis 548 50 (500 : ℚ) = 274 := by
    rw [show (500 : ℚ) = ((500 : ℤ) : ℚ) by norm_num, mapAxis_int]
    norm_num
  have h3 : mapCenter testConfig ((500 : ℤ), (500 : ℤ))
      = GCommand.move (306.5 : ℚ) (274 : ℚ) 0 := by
    rw [mapCenter_eq]
    show GCommand.move (mapAxis 613 50 _) (mapAxis 548 50 _)
        (if true then 0 else _) = _
    rw [if_pos rfl]
    push_cast
    rw [hx, hy]
  have h4 : pipelineCentroid testConfig [Blob.mk 1 500 500]
      = [GCommand.feedrate 5000, GCommand.move (306.5 : ℚ) (274 : ℚ) 0] := by
    unfold pipelineCentroid
    rw [h1, h2]
    unfold emitGcode
    rw [if_pos (by decide : testConfig.program_initial_speed ≠ 0),
      List.map_cons, List.map_nil, h3]
    rfl
  exact ⟨h4, by rw [h4]; simp [isMove]⟩

/-- C3: for every mapped point the emitted Z coordinate is 0 when the
debug flag is on, and equals the mapped-and-rounded Y value when the
debug flag is off. -/
theorem debug_pins_z_to_zero (cfg : ProgramConfig) (c : ℤ × ℤ) :
    gZ (mapCenter cfg c) =
      if cfg.program_debug then 0 else gY (mapCenter cfg c) := by
  rw [mapCenter_eq]
  rcases hd : cfg.program_debug <;> simp [hd, gZ, gY]

/-- C4: centroid ordering is a stable ascending sort by the (squared)
Euclidean distance to the reference center
`(program_maximum_x/2, program_maximum_y/2)`: the output is sorted and
a permutation of the input; comparing square roots of `distKey` is the
same as comparing `distKey` (so this is genuinely the Euclidean-distance
order); and for every fixed distance value the equal-distance elements
appear in the output in exactly their input (extraction) order. -/
theorem centroid_sort_stable_by_distance (cfg : ProgramConfig) (l : List (ℤ × ℤ)) :
    List.Sorted (fun a b => distKey cfg a ≤ distKey cfg b) (sortCenters cfg l) ∧
    (sortCenters cfg l).Perm l ∧
    (∀ a b : ℤ × ℤ,
      (Real.sqrt ((distKey cfg a : ℚ) : ℝ) ≤ Real.sqrt ((distKey cfg b : ℚ) : ℝ)
        ↔ distKey cfg a ≤ distKey cfg b)) ∧
    ∀ d : ℚ, (sortCenters cfg l).filter (fun c => decide (distKey cfg c = d))
      = l.filter (fun c => decide (distKey cfg c = d)) := by
  refine ⟨?_, ?_, ?_, ?_⟩
  · haveI : IsTotal (ℤ × ℤ) (fun a b => distKey cfg a ≤ distKey cfg b) :=
      ⟨fun a b => le_total _ _⟩
    haveI : IsTrans (ℤ × ℤ) (fun a b => distKey cfg a ≤ distKey cfg b) :=
      ⟨fun a b c hab hbc => le_trans hab hbc⟩
    exact List.sorted_insertionSort _ l
  · exact List.perm_insertionSort _ l
  · intro a b
    have hq : (0 : ℚ) ≤ distKey cfg b := by
      unfold distKey
      positivity
    have hb : (0 : ℝ) ≤ ((distKey cfg b : ℚ) : ℝ) := by exact_mod_cast hq
    rw [Real.sqrt_le_sqrt_iff hb]
    exact ⟨fun h => by exact_mod_cast h, fun h => by exact_mod_cast h⟩
  · intro d
    exact filter_key_insertionSort (distKey cfg) d l

/-- C5: the centroid extractor skips every blob of zero area (`m00 = 0`)
— the output is exactly the centroids of the nonzero-area blobs in
order, and every output centroid comes from a blob of nonzero area via
the moment ratio. -/
theorem zero_area_blob_excluded (blobs : List Blob) :
    extractCenters blobs =
      ((blobs.filter fun b => decide (b.m00 ≠ 0)).map centroidOf) ∧
    ∀ c ∈ extractCenters blobs, ∃ b ∈ blobs, b.m00 ≠ 0 ∧ c = centroidOf b := by
  constructor
  · induction blobs with
    | nil => rfl
    | cons b bs ih =>
      simp only [extractCenters, List.filter_cons]
      by_cases h : b.m00 ≠ 0 <;> simp [h, ih]
  · induction blobs with
    | nil =>
      intro c hc
      simp [extractCenters] at hc
    | cons b bs ih =>
      intro c hc
      simp only [extractCenters] at hc
      by_cases h : b.m00 ≠ 0
      · rw [if_pos h] at hc
        rcases List.mem_cons.1 hc with hc | hc
        · exact ⟨b, List.mem_cons_self b bs, h, hc⟩
        · rcases ih c hc with ⟨b', hb', hb0, hcb⟩
          exact ⟨b', List.mem_cons_of_mem b hb', hb0, hcb⟩
      · rw [if_neg h] at hc
        rcases ih c hc with ⟨b', hb', hb0, hcb⟩
        exact ⟨b', List.mem_cons_of_mem b hb', hb0, hcb⟩

/-- Witness for C5: a zero-area blob followed by a one-pixel blob —
the sole output centroid comes from the nonzero-area blob. -/
theorem zero_area_blob_excluded_witness :
    ∃ b ∈ [Blob.mk 0 1 1, Blob.mk 1 500 500],
      b.m00 ≠ 0 ∧ ((500 : ℤ), (500 : ℤ)) = centroidOf b :=
  (zero_area_blob_excluded [Blob.mk 0 1 1, Blob.mk 1 500 500]).2 (500, 500)
    (by norm_num [extractCenters, centroidOf, truncQ])

/-- C6: for an empty feature set the emitted stream has no motion
command: it is exactly the one feed-rate line when the initial speed is
nonzero and empty otherwise; and in general the stream is the optional
feed-rate line followed by the motion commands, so the feed-rate line,
when present, precedes every motion command. -/
theorem blank_canvas_emits_only_feedrate (cfg : ProgramConfig) :
    (emitGcode cfg []).filter isMove = [] ∧
    emitGcode cfg [] = (if cfg.program_initial_speed ≠ 0
      then [GCommand.feedrate cfg.program_initial_speed] else []) ∧
    ∀ centers : List (ℤ × ℤ),
      emitGcode cfg centers =
        (if cfg.program_initial_speed ≠ 0
          then [GCommand.feedrate cfg.program_initial_speed] else [])
          ++ centers.map (mapCenter cfg) := by
  refine ⟨?_, ?_, fun centers => rfl⟩
  · unfold emitGcode
    split_ifs <;> simp [isMove]
  · unfold emitGcode
    simp

/-- C7: with the bed-shake option enabled, the emitted stream starts
with the 25-command preamble alternating between the two fixed Z states
0 and 1, none of which is a motion command, and every motion command in
the stream sits at index at least 25 — after the whole preamble. -/
theorem bed_shake_preamble_25_alternating (cfg : ProgramConfig)
    (centers : List (ℤ × ℤ)) :
    emitWithShake cfg true centers = bedShakePreamble ++ emitGcode cfg centers ∧
    bedShakePreamble.length = 25 ∧
    (∀ i : ℕ, i < 25 →
      bedShakePreamble[i]? = some (GCommand.shakeZ (if i % 2 = 0 then 0 else 1))) ∧
    (∀ g ∈ bedShakePreamble, isMove g = false) ∧
    ∀ i : ℕ, ∀ g : GCommand, (emitWithShake cfg true centers)[i]? = some g →
      isMove g = true → 25 ≤ i := by
  have hlen : bedShakePreamble.length = 25 := by simp [bedShakePreamble]
  have helem : ∀ i : ℕ, i < 25 →
      bedShakePreamble[i]? = some (GCommand.shakeZ (if i % 2 = 0 then 0 else 1)) := by
    intro i hi
    simp [bedShakePreamble, List.getElem?_map, List.getElem?_range, hi]
  refine ⟨rfl, hlen, helem, ?_, ?_⟩
  · intro g hg
    simp only [bedShakePreamble, List.mem_map] at hg
    rcases hg with ⟨i, _, rfl⟩
    rfl
  · intro i g hig hm
    by_contra hge
    push_neg at hge
    have hig' : (bedShakePreamble ++ emitGcode cfg centers)[i]? = some g := hig
    rw [List.getElem?_append, if_pos (by rw [hlen]; exact hge)] at hig'
    rw [helem i hge] at hig'
    have hgz : g = GCommand.shakeZ (if i % 2 = 0 then 0 else 1) := by
      injection hig' with h
      exact h.symm
    rw [hgz] at hm
    simp [isMove] at hm

/-- Witness for C7: the first preamble slot holds `Z0`, and the motion
command of the single center `(0,0)` sits at index 26 ≥ 25. -/
theorem bed_shake_preamble_25_alternating_witness :
    bedShakePreamble[0]? = some (GCommand.shakeZ 0) ∧ (25 : ℕ) ≤ 26 :=
  ⟨by
    have h := (bed_shake_preamble_25_alternating testConfig []).2.2.1 0 (by decide)
    simpa using h,
   (bed_shake_preamble_25_alternating testConfig [((0 : ℤ), (0 : ℤ))]).2.2.2.2 26
     (mapCenter testConfig (0, 0)) rfl (isMove_mapCenter testConfig (0, 0))⟩

/-- C8: the mapper is exact on the integer canvas coordinates the
pipeline feeds it, so applying the inverse arithmetic
`(device - border)*1000/(max - 2*border)` to an emitted device
coordinate recovers the original canvas coordinate within ±0.001
(in fact exactly). -/
theorem mapper_inverse_roundtrip (m b c : ℤ) (h : m ≠ 2 * b) :
    |(mapAxis m b (c : ℚ) - b) * 1000 / ((m : ℚ) - 2 * b) - c| ≤ 1 / 1000 := by
  have hb : ((m : ℚ) - 2 * b) ≠ 0 := by
    intro hh
    apply h
    have h2 : (m : ℚ) = ((2 * b : ℤ) : ℚ) := by push_cast; linarith
    exact_mod_cast h2
  rw [mapAxis_int]
  have hz : ((((m - 2 * b) * c + 1000 * b : ℤ) : ℚ) / 1000 - b) * 1000
      / ((m : ℚ) - 2 * b) - c = 0 := by
    push_cast
    field_simp
  rw [hz]
  norm_num

/-- Witness for C8 at the configured X axis and canvas coordinate 500. -/
theorem mapper_inverse_roundtrip_witness :
    |(mapAxis 613 50 ((500 : ℤ) : ℚ) - ((50 : ℤ) : ℚ)) * 1000
        / (((613 : ℤ) : ℚ) - 2 * ((50 : ℤ) : ℚ)) - ((500 : ℤ) : ℚ)| ≤ 1 / 1000 :=
  mapper_inverse_roundtrip 613 50 500 (by decide)

/-- C9: every centroid the extractor outputs has integer coordinates
obtained by truncating the moment ratios `m10/m00` and `m01/m00`
toward zero (Python's `int()`): `truncQ` is the floor on nonnegative
rationals and the ceiling on nonpositive ones. -/
theorem centroid_coords_truncated_int :
    (∀ (blobs : List Blob), ∀ c ∈ extractCenters blobs, ∃ b ∈ blobs,
      b.m00 ≠ 0 ∧ c.1 = truncQ (b.m10 / b.m00) ∧ c.2 = truncQ (b.m01 / b.m00)) ∧
    (∀ q : ℚ, 0 ≤ q → truncQ q = ⌊q⌋) ∧
    (∀ q : ℚ, q ≤ 0 → truncQ q = ⌈q⌉) := by
  refine ⟨?_, ?_, ?_⟩
  · intro blobs
    induction blobs with
    | nil =>
      intro c hc
      simp [extractCenters] at hc
    | cons b bs ih =>
      intro c hc
      simp only [extractCenters] at hc
      by_cases h : b.m00 ≠ 0
      · rw [if_pos h] at hc
        rcases List.mem_cons.1 hc with hc | hc
        · exact ⟨b, List.mem_cons_self b bs, h, by rw [hc]; exact ⟨rfl, rfl⟩⟩
        · rcases ih c hc with ⟨b', hb', hb0, h1, h2⟩
          exact ⟨b', List.mem_cons_of_mem b hb', hb0, h1, h2⟩
      · rw [if_neg h] at hc
        rcases ih c hc with ⟨b', hb', hb0, h1, h2⟩
        exact ⟨b', List.mem_cons_of_mem b hb', hb0, h1, h2⟩
  · intro q hq
    unfold truncQ
    rw [if_neg (not_lt.2 hq)]
  · intro q hq
    unfold truncQ
    rcases lt_or_eq_of_le hq with h | h
    · rw [if_pos h, Int.floor_neg, neg_neg]
    · rw [h]
      simp

/-- Witness for C9 on a unit-area blob with moments (1, 7, 9). -/
theorem centroid_coords_truncated_int_witness :
    ∃ b ∈ [Blob.mk 1 7 9], b.m00 ≠ 0 ∧
      ((7 : ℤ), (9 : ℤ)).1 = truncQ (b.m10 / b.m00) ∧
      ((7 : ℤ), (9 : ℤ)).2 = truncQ (b.m01 / b.m00) :=
  centroid_coords_truncated_int.1 [Blob.mk 1 7 9] (7, 9)
    (by norm_num [extractCenters, centroidOf, truncQ])

/-- C10: in the contour-mode variant of `main.py`, every per-point
motion command goes to the separate buffer `gcode_temp`; the file is
written from `gcode`, which holds at most the feed-rate line and never
a motion command. -/
theorem contour_mode_writes_no_motion (cfg : ProgramConfig)
    (contours : List (List (ℤ × ℤ))) :
    writtenGcode cfg contours =
      (if cfg.program_initial_speed ≠ 0
        then [GCommand.feedrate cfg.program_initial_speed] else []) ∧
    (∀ g ∈ writtenGcode cfg contours, isMove g = false) ∧
    (contourPipeline cfg contours).gcode_temp
      = (contours.map fun c => c.map (mapCenter cfg)).flatten := by
  have hpipe : contourPipeline cfg contours =
      contours.foldl (fun st c => c.foldl (contourStep cfg) st)
        { gcode := if cfg.program_initial_speed ≠ 0
            then [GCommand.feedrate cfg.program_initial_speed] else []
          gcode_temp := [] } := rfl
  rcases contours_fold_gcode cfg contours
    { gcode := if cfg.program_initial_speed ≠ 0
        then [GCommand.feedrate cfg.program_initial_speed] else []
      gcode_temp := [] } with ⟨h1, h2⟩
  have hg : writtenGcode cfg contours =
      (if cfg.program_initial_speed ≠ 0
        then [GCommand.feedrate cfg.program_initial_speed] else []) := by
    show (contourPipeline cfg contours).gcode = _
    rw [hpipe, h1]
  refine ⟨hg, ?_, ?_⟩
  · intro g hgmem
    rw [hg] at hgmem
    by_cases hs : cfg.program_initial_speed = 0
    · rw [if_neg (not_not_intro hs)] at hgmem
      simp at hgmem
    · rw [if_pos hs] at hgmem
      rcases List.mem_singleton.1 hgmem with rfl
      rfl
  · rw [hpipe, h2]
    simp

/-- Witness for C10: with one one-point contour, the only line reaching
the output file is the feed-rate line, not a motion command. -/
theorem contour_mode_writes_no_motion_witness :
    isMove (GCommand.feedrate 5000) = false :=
  (contour_mode_writes_no_motion testConfig [[((0 : ℤ), (0 : ℤ))]]).2.1
    (GCommand.feedrate 5000) (by decide)
